import Mathlib

set_option maxHeartbeats 1000000

/-!
Verification of the Reddit MCP client's transport layer
(`src/mcp_apps/reddit_mcp_agent/src/reddit_client.py` and
`src/mcp_apps/reddit_mcp_agent/src/reddit_sync_client.py`).

The wire data are modelled at the level of decoded JSON values and decoded
character streams: Python's `json` module (an external library the client
calls) is embedded as an executable serializer `dumpJson` mirroring
`json.dumps` with its default options (separators with a space, ASCII-only
output) and an executable scanner `jsonLoads` mirroring `json.loads` on the
integer-numeric fragment of JSON (the client never produces or consumes
float literals; floats are not shallowly embeddable).  Python exceptions are
modelled with `Except`; the distinct raise sites of the source get distinct
constructors of `ClientError`.
-/

namespace List

/-- Contiguous-substring test used to model Python `needle in haystack` on
strings. -/
def isHeadRun {α : Type} [DecidableEq α] : List α → List α → Bool
  | [], _ => true
  | _ :: _, [] => false
  | a :: as, b :: bs => a == b && isHeadRun as bs

/-- True when `needle` occurs contiguously inside `hay`. -/
def isSublistChain {α : Type} [DecidableEq α] (needle : List α) : List α → Bool
  | [] => needle.isEmpty
  | c :: cs => isHeadRun needle (c :: cs) || isSublistChain needle cs

end List

namespace RedditMCP

/-- JSON values as handled by Python's `json` module, restricted to integer
numbers.  Objects are key/value sequences in document order, matching
Python 3.7+ dict insertion order. -/
inductive Json : Type where
  | null : Json
  | bool (b : Bool) : Json
  | num (n : Int) : Json
  | str (s : String) : Json
  | arr (elems : List Json) : Json
  | obj (members : List (String × Json)) : Json

/-- Failure modes of the client.  Each constructor corresponds to one raise
site of the Python source (or, for `initializationTimeout`, to the
`TimeoutError` that `future.result(timeout=10)` can raise inside the facade's
`initialize`).  The generic Python exceptions raised by misuse of builtins
(`AttributeError`, `KeyError`, `TypeError`, `IndexError`) are modelled
directly. -/
inductive ClientError : Type where
  | notStarted : ClientError
  | connectionClosed : ClientError
  | malformedResponse (text : String) : ClientError
  | initializationFailed (response : Json) : ClientError
  | toolError (payload : Json) : ClientError
  | emptyResponse : ClientError
  | invalidJsonResponse (sample : String) : ClientError
  | notInitialized : ClientError
  | attributeError : ClientError
  | keyError : ClientError
  | typeError : ClientError
  | indexError : ClientError
  | initializationTimeout : ClientError

/-- First value bound to `key`, in insertion order: Python `d[key]` /
`d.get(key)` on a dict built in this order. -/
def lookupKey (kvs : List (String × Json)) (key : String) : Option Json :=
  match kvs with
  | [] => none
  | (k, v) :: rest => if k = key then some v else lookupKey rest key

/-- Python `key in d` for a dict. -/
def hasKey (kvs : List (String × Json)) (key : String) : Bool :=
  match kvs with
  | [] => false
  | (k, _) :: rest => k == key || hasKey rest key

/-- Python `x.get(key, default)`: succeeds only on a dict, raising
`AttributeError` otherwise (lists, strings, numbers and `None` have no
`get` attribute). -/
def pyGet (j : Json) (key : String) (default : Json) : Except ClientError Json :=
  match j with
  | .obj kvs => .ok ((lookupKey kvs key).getD default)
  | _ => .error .attributeError

/-- Python `x[key]` for a string key: value on a dict with the key,
`KeyError` on a dict without it, `TypeError` on anything else. -/
def pyGetItem (j : Json) (key : String) : Except ClientError Json :=
  match j with
  | .obj kvs =>
    match lookupKey kvs key with
    | some v => .ok v
    | none => .error .keyError
  | _ => .error .typeError

/-- Python `x[0]`: head of a list (`IndexError` when empty), first character
of a string (`IndexError` when empty), `KeyError` on a dict (`0` is not one
of its string keys), `TypeError` on scalars. -/
def pyIndexZero (j : Json) : Except ClientError Json :=
  match j with
  | .arr [] => .error .indexError
  | .arr (x :: _) => .ok x
  | .str s =>
    match s.data with
    | [] => .error .indexError
    | c :: _ => .ok (.str (String.mk [c]))
  | .obj _ => .error .keyError
  | _ => .error .typeError

/-- Python `key in x` for a string `key`: key membership on a dict, element
membership on a list, substring test on a string, `TypeError` otherwise. -/
def pyInContains (key : String) (j : Json) : Except ClientError Bool :=
  match j with
  | .obj kvs => .ok (hasKey kvs key)
  | .arr xs => .ok (xs.any fun x =>
      match x with
      | .str s => s == key
      | _ => false)
  | .str s => .ok (List.isSublistChain key.data s.data)
  | _ => .error .typeError

/-- Python truthiness of a JSON value: `None`, `False`, `0`, `""`, `[]` and
an empty dict are falsy, everything else truthy. -/
def truthy (j : Json) : Bool :=
  match j with
  | .null => false
  | .bool b => b
  | .num n => n != 0
  | .str s => s != ""
  | .arr xs => !xs.isEmpty
  | .obj kvs => !kvs.isEmpty

end RedditMCP


namespace RedditMCP

/-- The `initialize` request envelope built verbatim in
`RedditMCPClient.start` (reddit_client.py lines 23-35). -/
def initializeRequest : Json :=
  .obj [("jsonrpc", .str "2.0"),
        ("id", .num 1),
        ("method", .str "initialize"),
        ("params", .obj
          [("protocolVersion", .str "2024-11-05"),
           ("capabilities", .obj []),
           ("clientInfo", .obj
             [("name", .str "reddit-client"),
              ("version", .str "1.0.0")])])]

/-- The `tools/call` request envelope built verbatim in
`RedditMCPClient.call_tool` (reddit_client.py lines 76-84). -/
def callToolRequest (toolName : String) (arguments : Json) : Json :=
  .obj [("jsonrpc", .str "2.0"),
        ("id", .num 2),
        ("method", .str "tools/call"),
        ("params", .obj
          [("name", .str toolName),
           ("arguments", arguments)])]

/-- The `id` field of a request envelope. -/
def requestId (j : Json) : Option Json :=
  match j with
  | .obj kvs => lookupKey kvs "id"
  | _ => none

/-- Whether a JSON value is an object. -/
def isObj (j : Json) : Bool :=
  match j with
  | .obj _ => true
  | _ => false

/-- Response handling of `RedditMCPClient.call_tool` (reddit_client.py lines
89-92): raise on an `error` field, otherwise evaluate
`response.get("result", \x7b\x7d).get("content", [\x7b\x7d])[0].get("text", "")`
with Python's exception behaviour at each step. -/
def callToolHandle (response : Json) : Except ClientError Json := do
  let hasErr ← pyInContains "error" response
  if hasErr then
    let payload ← pyGetItem response "error"
    .error (.toolError payload)
  else
    let result ← pyGet response "result" (.obj [])
    let content ← pyGet result "content" (.arr [.obj []])
    let first ← pyIndexZero content
    pyGet first "text" (.str "")

/-- Response handling of `RedditMCPClient.start` (reddit_client.py lines
38-42): `response.get("result")` truthy means success, anything else raises
carrying the whole raw response. -/
def startHandleResponse (response : Json) : Except ClientError Unit := do
  let r ← pyGet response "result" .null
  if truthy r then .ok () else .error (.initializationFailed response)

/-- Argument dict built by `RedditMCPClient.post_to_subreddit`
(reddit_client.py lines 135-142): `content` and `url` keys are added only
when their values are truthy (non-`None` and non-empty). -/
def postToSubredditArgs (subreddit title : String) (content url : Option String) :
    List (String × Json) :=
  [("subreddit", Json.str subreddit), ("title", Json.str title)]
    ++ (match content with
        | some c => if c = "" then [] else [("content", Json.str c)]
        | none => [])
    ++ (match url with
        | some u => if u = "" then [] else [("url", Json.str u)]
        | none => [])

/-- State of a `RedditSyncClient` as far as control flow depends on it:
whether `self.client` is set (not `None`) and the `self.initialized` flag. -/
structure SyncState : Type where
  hasClient : Bool
  initialized : Bool

/-- Outcome of `future.result(timeout=10)` inside the facade's `initialize`:
`none` models the `TimeoutError` after 10 seconds, `some (.error e)` a
failure raised by `RedditMCPClient.start`, `some (.ok ())` success. -/
abbrev InitOutcome : Type := Option (Except ClientError Unit)

/-- `RedditSyncClient.initialize` (reddit_sync_client.py lines 30-64).
Returns the new state together with the call's result: `.ok b` models a
normal return of the Python bool `b`; `.error e` would model an escaping
exception, which the source's blanket `except Exception` makes unreachable. -/
def facadeInitialize (st : SyncState) (outcome : InitOutcome) :
    SyncState × Except ClientError Bool :=
  if st.initialized then (st, .ok true)
  else
    let st1 : SyncState := { st with hasClient := true }
    match outcome with
    | some (.ok ()) => ({ st1 with initialized := true }, .ok true)
    | some (.error _) => (st1, .ok false)
    | none => (st1, .ok false)

/-- A delegated facade operation, e.g. `RedditSyncClient.fetch_posts`
(reddit_sync_client.py line 76): Python first evaluates
`self.client.fetch_posts(...)`, raising `AttributeError` when `self.client`
is `None`; otherwise `_run_async` (lines 66-72) raises when
`self.initialized` is false, and only then runs the coroutine, whose result
is `coro`. -/
def facadeCall (st : SyncState) (coro : Except ClientError Json) :
    Except ClientError Json :=
  if !st.hasClient then .error .attributeError
  else if !st.initialized then .error .notInitialized
  else coro

end RedditMCP

namespace RedditMCP

/-- JSON whitespace characters skipped between tokens by the scanner. -/
def isJsonWs (c : Char) : Bool :=
  c == ' ' || c == '\t' || c == '\n' || c == '\r'

/-- Drop leading JSON whitespace. -/
def skipWs : List Char → List Char
  | [] => []
  | c :: cs => if isJsonWs c then skipWs cs else c :: cs

/-- Value of one hexadecimal digit, either case. -/
def hexVal (c : Char) : Option Nat :=
  if '0' ≤ c ∧ c ≤ '9' then some (c.toNat - 48)
  else if 'a' ≤ c ∧ c ≤ 'f' then some (c.toNat - 87)
  else if 'A' ≤ c ∧ c ≤ 'F' then some (c.toNat - 55)
  else none

/-- Value of a four-hex-digit escape body. -/
def hex4Val (a b c d : Char) : Option Nat := do
  let va ← hexVal a
  let vb ← hexVal b
  let vc ← hexVal c
  let vd ← hexVal d
  pure (va * 4096 + vb * 256 + vc * 16 + vd)

/-- Prepend one decoded character to a string-scan result. -/
def consStr (c : Char) (o : Option (List Char × List Char)) :
    Option (List Char × List Char) :=
  o.map fun p => (c :: p.1, p.2)

/-- Read four hexadecimal digits. -/
def readHex4 (cs : List Char) : Option (Nat × List Char) :=
  match cs with
  | a :: b :: c :: d :: cs2 =>
    match hex4Val a b c d with
    | some n => some (n, cs2)
    | none => none
  | _ => none

/-- Decode the body of a `\uXXXX` escape, the `\u` already consumed: a high
surrogate must be followed by a low one and yields the combined code point
(a lone surrogate, which Python would keep as an unpaired code point, has no
`Char` counterpart and is out of the model). -/
def decodeUEsc (cs : List Char) : Option (Char × List Char) :=
  match readHex4 cs with
  | none => none
  | some (n, cs2) =>
    if 0xD800 ≤ n ∧ n < 0xDC00 then
      match cs2 with
      | x :: y :: cs3 =>
        if x = '\\' ∧ y = 'u' then
          match readHex4 cs3 with
          | none => none
          | some (m, cs4) =>
            if 0xDC00 ≤ m ∧ m < 0xE000 then
              some (Char.ofNat (0x10000 + (n - 0xD800) * 0x400 + (m - 0xDC00)), cs4)
            else none
        else none
      | _ => none
    else if 0xDC00 ≤ n ∧ n < 0xE000 then none
    else some (Char.ofNat n, cs2)

/-- Decode one escape sequence, the backslash already consumed: returns the
decoded character and the remaining input.  Escapes follow `json.loads`. -/
def decodeEsc (cs : List Char) : Option (Char × List Char) :=
  match cs with
  | [] => none
  | e :: cs2 =>
    if e = '"' then some ('"', cs2)
    else if e = '\\' then some ('\\', cs2)
    else if e = '/' then some ('/', cs2)
    else if e = 'b' then some ('\x08', cs2)
    else if e = 'f' then some ('\x0c', cs2)
    else if e = 'n' then some ('\n', cs2)
    else if e = 'r' then some ('\r', cs2)
    else if e = 't' then some ('\t', cs2)
    else if e = 'u' then decodeUEsc cs2
    else none

/-- Scan the body of a JSON string literal, the opening quote already
consumed: returns the decoded characters and the input after the closing
quote.  Raw control characters are rejected as in `json.loads` strict mode.
Fuel decreases once per decoded character; callers supply ample fuel. -/
def parseStrBody : Nat → List Char → Option (List Char × List Char)
  | 0, _ => none
  | _ + 1, [] => none
  | fuel + 1, c :: cs =>
    if c = '"' then some ([], cs)
    else if c = '\\' then
      match decodeEsc cs with
      | none => none
      | some (d, cs2) => consStr d (parseStrBody fuel cs2)
    else if c.toNat < 0x20 then none
    else consStr c (parseStrBody fuel cs)

/-- Accumulate decimal digits greedily. -/
def scanDigits : Nat → List Char → Nat × List Char
  | acc, [] => (acc, [])
  | acc, c :: cs =>
    if c.isDigit then scanDigits (acc * 10 + (c.toNat - 48)) cs else (acc, c :: cs)

/-- Finish an integer literal: a following '.', 'e' or 'E' would make Python
scan a float, which lies outside the embedded integer fragment. -/
def intOnlyAfter (v : Int) (rest : List Char) : Option (Int × List Char) :=
  match rest with
  | [] => some (v, [])
  | c :: _ => if c = '.' ∨ c = 'e' ∨ c = 'E' then none else some (v, rest)

/-- Scan an integer numeric literal with optional leading minus. -/
def scanIntLit : List Char → Option (Int × List Char)
  | [] => none
  | c :: cs =>
    if c = '-' then
      match cs with
      | [] => none
      | d :: ds =>
        if d.isDigit then
          let p := scanDigits (d.toNat - 48) ds
          intOnlyAfter (-(p.1 : Int)) p.2
        else none
    else if c.isDigit then
      let p := scanDigits (c.toNat - 48) cs
      intOnlyAfter (p.1 : Int) p.2
    else none

/-- Match an exact run of literal characters. -/
def expectChars : List Char → List Char → Option (List Char)
  | [], cs => some cs
  | _ :: _, [] => none
  | p :: ps, c :: cs => if c = p then expectChars ps cs else none

mutual

/-- Scan one JSON value.  Fuel strictly decreases at every nested scan;
`jsonLoads` supplies fuel ample for its whole input, so a `none` from
exhausted fuel never occurs on inputs `json.loads` accepts. -/
def scanValue : Nat → List Char → Option (Json × List Char)
  | 0, _ => none
  | fuel + 1, cs =>
    match skipWs cs with
    | [] => none
    | c :: rest =>
      if c = 'n' then (expectChars ['u', 'l', 'l'] rest).map fun r => (Json.null, r)
      else if c = 't' then (expectChars ['r', 'u', 'e'] rest).map fun r => (Json.bool true, r)
      else if c = 'f' then (expectChars ['a', 'l', 's', 'e'] rest).map fun r => (Json.bool false, r)
      else if c = '"' then (parseStrBody fuel rest).map fun p => (Json.str (String.mk p.1), p.2)
      else if c = '[' then scanArrayRest fuel rest
      else if c = '{' then scanObjectRest fuel rest
      else (scanIntLit (c :: rest)).map fun p => (Json.num p.1, p.2)

/-- Scan an array after its opening bracket. -/
def scanArrayRest : Nat → List Char → Option (Json × List Char)
  | 0, _ => none
  | fuel + 1, cs =>
    match skipWs cs with
    | [] => none
    | c :: rest =>
      if c = ']' then some (Json.arr [], rest)
      else
        match scanValue fuel (c :: rest) with
        | none => none
        | some (x, r1) =>
          match scanArrayTail fuel r1 with
          | none => none
          | some (xs, r2) => some (Json.arr (x :: xs), r2)

/-- Scan an array continuation: ']' closes, ',' precedes one more element. -/
def scanArrayTail : Nat → List Char → Option (List Json × List Char)
  | 0, _ => none
  | fuel + 1, cs =>
    match skipWs cs with
    | [] => none
    | c :: rest =>
      if c = ']' then some ([], rest)
      else if c = ',' then
        match scanValue fuel rest with
        | none => none
        | some (x, r1) =>
          match scanArrayTail fuel r1 with
          | none => none
          | some (xs, r2) => some (x :: xs, r2)
      else none

/-- Scan an object after its opening brace. -/
def scanObjectRest : Nat → List Char → Option (Json × List Char)
  | 0, _ => none
  | fuel + 1, cs =>
    match skipWs cs with
    | [] => none
    | c :: rest =>
      if c = '}' then some (Json.obj [], rest)
      else if c = '"' then
        match scanMember fuel rest with
        | none => none
        | some (kv, r1) =>
          match scanObjectTail fuel r1 with
          | none => none
          | some (kvs, r2) => some (Json.obj (kv :: kvs), r2)
      else none

/-- Scan one object member, the key's opening quote already consumed. -/
def scanMember : Nat → List Char → Option ((String × Json) × List Char)
  | 0, _ => none
  | fuel + 1, cs =>
    match parseStrBody fuel cs with
    | none => none
    | some (k, r1) =>
      match skipWs r1 with
      | [] => none
      | c :: r2 =>
        if c = ':' then
          match scanValue fuel r2 with
          | none => none
          | some (v, r3) => some ((String.mk k, v), r3)
        else none

/-- Scan an object continuation: '}' closes, ',' precedes one more member. -/
def scanObjectTail : Nat → List Char → Option (List (String × Json) × List Char)
  | 0, _ => none
  | fuel + 1, cs =>
    match skipWs cs with
    | [] => none
    | c :: rest =>
      if c = '}' then some ([], rest)
      else if c = ',' then
        match skipWs rest with
        | [] => none
        | c2 :: r1 =>
          if c2 = '"' then
            match scanMember fuel r1 with
            | none => none
            | some (kv, r2) =>
              match scanObjectTail fuel r2 with
              | none => none
              | some (kvs, r3) => some (kv :: kvs, r3)
          else none
      else none

end

/-- Model of `json.loads` on the integer fragment of JSON: scan one value,
then require only whitespace to remain (Python's "Extra data" error
otherwise). -/
def jsonLoads (cs : List Char) : Option Json :=
  match scanValue (2 * cs.length + 4) cs with
  | some (j, rest) => if (skipWs rest).isEmpty then some j else none
  | none => none

/-- Characters stripped by Python `str.strip()`. -/
def isPyWs (c : Char) : Bool :=
  c == ' ' || c == '\t' || c == '\n' || c == '\r' || c == '\x0b' || c == '\x0c'

/-- Python `str.strip()`. -/
def pyStrip (cs : List Char) : List Char :=
  ((cs.dropWhile isPyWs).reverse.dropWhile isPyWs).reverse

/-- Model of `asyncio.StreamReader.readline` over the child's entire future
output: the line up to and including the first newline, or all remaining
characters at end of stream (empty exactly when the stream is exhausted). -/
def readline : List Char → List Char × List Char
  | [] => ([], [])
  | c :: cs =>
    if c = '\n' then ([c], cs)
    else
      let p := readline cs
      (c :: p.1, p.2)

/-- `RedditMCPClient._read_message` (reddit_client.py lines 53-62) on the
remaining output stream of a started process: read one line, raise when the
read yields nothing (end of stream), then `json.loads(line.strip())`.
Returns the decoded value and the unconsumed stream. -/
def readMessage (stream : List Char) : Except ClientError (Json × List Char) :=
  let p := readline stream
  if p.1.isEmpty then .error .connectionClosed
  else
    match jsonLoads (pyStrip p.1) with
    | some j => .ok (j, p.2)
    | none => .error (.malformedResponse (String.mk (pyStrip p.1)))

/-- `RedditMCPClient._safe_json_parse` (reddit_client.py lines 64-72): empty
or whitespace-only text raises at once; otherwise `json.loads`, a decode
failure raising an error that carries `text[:100]`. -/
def safeJsonParse (text : String) : Except ClientError Json :=
  if text.data.isEmpty || (pyStrip text.data).isEmpty then .error .emptyResponse
  else
    match jsonLoads text.data with
    | some j => .ok j
    | none => .error (.invalidJsonResponse (String.mk (text.data.take 100)))

end RedditMCP

namespace RedditMCP

/-- Decimal digit character for a value below ten. -/
def digitChar : Nat → Char
  | 0 => '0'
  | 1 => '1'
  | 2 => '2'
  | 3 => '3'
  | 4 => '4'
  | 5 => '5'
  | 6 => '6'
  | 7 => '7'
  | 8 => '8'
  | _ => '9'

/-- Lowercase hexadecimal digit character for a value below sixteen. -/
def hexDigitChar : Nat → Char
  | 0 => '0'
  | 1 => '1'
  | 2 => '2'
  | 3 => '3'
  | 4 => '4'
  | 5 => '5'
  | 6 => '6'
  | 7 => '7'
  | 8 => '8'
  | 9 => '9'
  | 10 => 'a'
  | 11 => 'b'
  | 12 => 'c'
  | 13 => 'd'
  | 14 => 'e'
  | _ => 'f'

/-- Four lowercase hex digits, as Python's `\uXXXX` escape body. -/
def hex4Chars (n : Nat) : List Char :=
  [hexDigitChar (n / 4096 % 16), hexDigitChar (n / 256 % 16),
   hexDigitChar (n / 16 % 16), hexDigitChar (n % 16)]

/-- Decimal rendering of a natural number, most significant digit first, as
Python `str` of a non-negative int. -/
def dumpNat (n : Nat) : List Char :=
  if n < 10 then [digitChar n]
  else dumpNat (n / 10) ++ [digitChar (n % 10)]
termination_by n
decreasing_by exact Nat.div_lt_self (by omega) (by omega)

/-- Python `str` of an int. -/
def dumpInt : Int → List Char
  | .ofNat m => dumpNat m
  | .negSucc m => '-' :: dumpNat (m + 1)

/-- Encoding of one character by `json.dumps` with its default
`ensure_ascii=True`: the two-character short escapes, `\uXXXX` for other
control and non-ASCII characters, a UTF-16 surrogate pair for code points
beyond the basic plane, printable ASCII kept as itself. -/
def escapeChar (c : Char) : List Char :=
  if c = '"' then ['\\', '"']
  else if c = '\\' then ['\\', '\\']
  else if c = '\x08' then ['\\', 'b']
  else if c = '\x0c' then ['\\', 'f']
  else if c = '\n' then ['\\', 'n']
  else if c = '\r' then ['\\', 'r']
  else if c = '\t' then ['\\', 't']
  else if c.toNat < 0x20 then '\\' :: 'u' :: hex4Chars c.toNat
  else if c.toNat < 0x7f then [c]
  else if c.toNat < 0x10000 then '\\' :: 'u' :: hex4Chars c.toNat
  else
    '\\' :: 'u' :: hex4Chars (0xD800 + (c.toNat - 0x10000) / 0x400)
      ++ '\\' :: 'u' :: hex4Chars (0xDC00 + (c.toNat - 0x10000) % 0x400)

/-- Encode a run of characters. -/
def escapeList : List Char → List Char
  | [] => []
  | c :: cs => escapeChar c ++ escapeList cs

/-- A JSON string literal as `json.dumps` writes it. -/
def dumpStringLit (s : String) : List Char :=
  '"' :: escapeList s.data ++ ['"']

mutual

/-- Serialization of one value by `json.dumps` with default options:
separators are a comma-space between items and a colon-space after a key,
no indentation, so the output is one line whenever the data is. -/
def dumpJson : Json → List Char
  | .null => ['n', 'u', 'l', 'l']
  | .bool (true) => ['t', 'r', 'u', 'e']
  | .bool (false) => ['f', 'a', 'l', 's', 'e']
  | .num n => dumpInt n
  | .str s => dumpStringLit s
  | .arr [] => ['[', ']']
  | .arr (x :: xs) => '[' :: dumpJson x ++ dumpElemsRest xs
  | .obj [] => ['{', '}']
  | .obj (kv :: kvs) =>
    '{' :: dumpStringLit kv.1 ++ ':' :: ' ' :: dumpJson kv.2 ++ dumpMembersRest kvs

/-- Remaining array items after the first, then the closing bracket. -/
def dumpElemsRest : List Json → List Char
  | [] => [']']
  | x :: xs => ',' :: ' ' :: dumpJson x ++ dumpElemsRest xs

/-- Remaining object members after the first, then the closing brace. -/
def dumpMembersRest : List (String × Json) → List Char
  | [] => ['}']
  | kv :: kvs => ',' :: ' ' :: dumpStringLit kv.1 ++ ':' :: ' ' :: dumpJson kv.2 ++ dumpMembersRest kvs

end

/-- Characters `_send_message` writes for one envelope:
`json.dumps(message) + "\n"`. -/
def wireBytes (message : Json) : List Char :=
  dumpJson message ++ ['\n']

/-- `RedditMCPClient._send_message` (reddit_client.py lines 44-51): raises
when the process was never started, otherwise writes and drains one framed
envelope.  Returns the characters written. -/
def sendMessage (processStarted : Bool) (message : Json) :
    Except ClientError (List Char) :=
  if processStarted then .ok (wireBytes message) else .error .notStarted

/-- `RedditMCPClient.call_tool` (reddit_client.py lines 74-92) run against
the child's pending output `stream`: build and send the id-2 request
envelope, read one response line, then convert or unwrap it. -/
def callTool (processStarted : Bool) (toolName : String) (arguments : Json)
    (stream : List Char) : Except ClientError (Json × List Char) := do
  let _ ← sendMessage processStarted (callToolRequest toolName arguments)
  let (response, rest) ← readMessage stream
  let v ← callToolHandle response
  pure (v, rest)

/-- Reception half of `RedditMCPClient.start` (reddit_client.py lines
37-42): read the handshake response and check it. -/
def startReceive (stream : List Char) : Except ClientError (List Char) := do
  let (response, rest) ← readMessage stream
  let _ ← startHandleResponse response
  pure rest

end RedditMCP

namespace RedditMCP

theorem char_toNat_inj {c d : Char} (h : c.toNat = d.toNat) : c = d := by
  rw [← Char.ofNat_toNat c, h, Char.ofNat_toNat]

theorem char_isDigit_iff {c : Char} : c.isDigit = true ↔ 48 ≤ c.toNat ∧ c.toNat ≤ 57 := by
  simp only [Char.isDigit, Bool.and_eq_true, decide_eq_true_eq, Char.le_def]
  exact Iff.rfl

theorem digitChar_toNat {d : Nat} (h : d < 10) : (digitChar d).toNat = 48 + d := by
  interval_cases d <;> rfl

theorem digitChar_isDigit {d : Nat} (h : d < 10) : (digitChar d).isDigit = true := by
  interval_cases d <;> rfl

theorem hexVal_hexDigitChar {d : Nat} (h : d < 16) : hexVal (hexDigitChar d) = some d := by
  interval_cases d <;> rfl

theorem hex4Val_hex4Chars {n : Nat} (h : n < 65536) :
    hex4Val (hexDigitChar (n / 4096 % 16)) (hexDigitChar (n / 256 % 16))
      (hexDigitChar (n / 16 % 16)) (hexDigitChar (n % 16)) = some n := by
  rw [hex4Val, hexVal_hexDigitChar (by omega), hexVal_hexDigitChar (by omega),
      hexVal_hexDigitChar (by omega), hexVal_hexDigitChar (by omega)]
  simp only [Option.bind_eq_bind, Option.some_bind, Option.pure_def, Option.some.injEq]
  omega

theorem dumpNat_ne_nil (n : Nat) : dumpNat n ≠ [] := by
  rw [dumpNat]; split <;> simp

theorem dumpNat_all_digits : ∀ n : Nat, ∀ c ∈ dumpNat n, c.isDigit = true := by
  intro n
  induction n using Nat.strongRecOn with
  | ind n IH =>
    rw [dumpNat]
    split
    · next h =>
      intro c hc
      simp only [List.mem_singleton] at hc
      subst hc
      exact digitChar_isDigit h
    · next h =>
      intro c hc
      rw [List.mem_append] at hc
      rcases hc with h1 | h2
      · exact IH (n / 10) (Nat.div_lt_self (by omega) (by omega)) c h1
      · simp only [List.mem_singleton] at h2
        subst h2
        exact digitChar_isDigit (Nat.mod_lt _ (by omega))

/-- One step of decimal accumulation, as `scanDigits` performs it. -/
def digitStep (acc : Nat) (c : Char) : Nat := acc * 10 + (c.toNat - 48)

/-- Absence of a further digit right after a token. -/
def NoDigitAhead (rest : List Char) : Prop :=
  match rest with
  | [] => True
  | c :: _ => c.isDigit = false

theorem scanDigits_all : ∀ ds : List Char, (∀ c ∈ ds, c.isDigit = true) →
    ∀ acc (rest : List Char), NoDigitAhead rest →
    scanDigits acc (ds ++ rest) = (ds.foldl digitStep acc, rest) := by
  intro ds
  induction ds with
  | nil =>
    intro _ acc rest hrest
    cases rest with
    | nil => rfl
    | cons c cs =>
      simp only [NoDigitAhead] at hrest
      simp [scanDigits, hrest]
  | cons d ds ih =>
    intro hds acc rest hrest
    have hd : d.isDigit = true := hds d (by simp)
    simp only [List.cons_append, scanDigits, hd, if_true, List.foldl_cons]
    exact ih (fun c hc => hds c (by simp [hc])) _ rest hrest

theorem foldl_digitStep_dumpNat : ∀ n acc : Nat,
    (dumpNat n).foldl digitStep acc = acc * 10 ^ (dumpNat n).length + n := by
  intro n
  induction n using Nat.strongRecOn with
  | ind n IH =>
    intro acc
    rw [dumpNat]
    split
    · next h =>
      simp only [List.foldl_cons, List.foldl_nil, List.length_singleton, pow_one, digitStep,
        digitChar_toNat h]
      omega
    · next h =>
      rw [List.foldl_append, IH (n / 10) (Nat.div_lt_self (by omega) (by omega))]
      simp only [List.foldl_cons, List.foldl_nil, List.length_append, List.length_singleton,
        digitStep, digitChar_toNat (show n % 10 < 10 by omega)]
      rw [pow_succ, ← mul_assoc]
      have hdm := Nat.div_add_mod n 10
      generalize acc * 10 ^ (dumpNat (n / 10)).length = K
      omega

theorem scanDigits_dumpNat {m : Nat} {rest : List Char} (hrest : NoDigitAhead rest) :
    ∀ c t, dumpNat m = c :: t → scanDigits (c.toNat - 48) (t ++ rest) = (m, rest) := by
  intro c t hct
  have hstep : c.toNat - 48 = digitStep 0 c := by simp [digitStep]
  have hall : ∀ x ∈ t, x.isDigit = true := by
    intro x hx
    exact dumpNat_all_digits m x (by rw [hct]; exact List.mem_cons_of_mem _ hx)
  rw [hstep, scanDigits_all t hall _ rest hrest]
  have : t.foldl digitStep (digitStep 0 c) = (dumpNat m).foldl digitStep 0 := by
    rw [hct, List.foldl_cons]
  rw [this, foldl_digitStep_dumpNat]
  simp

/-- Absence of anything that would extend a numeric literal right after a
token: no digit and no float continuation. -/
def TailOk (rest : List Char) : Prop :=
  match rest with
  | [] => True
  | c :: _ => c.isDigit = false ∧ c ≠ '.' ∧ c ≠ 'e' ∧ c ≠ 'E'

theorem TailOk.noDigit {rest : List Char} (h : TailOk rest) : NoDigitAhead rest := by
  cases rest with
  | nil => trivial
  | cons c cs => exact h.1

theorem intOnlyAfter_ok {v : Int} {rest : List Char} (h : TailOk rest) :
    intOnlyAfter v rest = some (v, rest) := by
  cases rest with
  | nil => rfl
  | cons c cs =>
    obtain ⟨_, h2, h3, h4⟩ := h
    simp [intOnlyAfter, h2, h3, h4]

theorem dumpNat_head (m : Nat) : ∃ c t, dumpNat m = c :: t ∧ c.isDigit = true := by
  cases hdn : dumpNat m with
  | nil => exact absurd hdn (dumpNat_ne_nil m)
  | cons c t =>
    exact ⟨c, t, rfl, dumpNat_all_digits m c (by rw [hdn]; simp)⟩

theorem scanIntLit_dumpInt {i : Int} {rest : List Char} (h : TailOk rest) :
    scanIntLit (dumpInt i ++ rest) = some (i, rest) := by
  cases i with
  | ofNat m =>
    obtain ⟨c, t, hct, hcd⟩ := dumpNat_head m
    have hcm : c ≠ '-' := by
      intro he
      have := char_isDigit_iff.mp hcd
      rw [he] at this
      simp at this
    show scanIntLit (dumpNat m ++ rest) = some ((m : Int), rest)
    rw [hct]
    simp only [List.cons_append, scanIntLit]
    rw [if_neg hcm, if_pos hcd]
    simp only [scanDigits_dumpNat h.noDigit c t hct]
    exact intOnlyAfter_ok h
  | negSucc m =>
    obtain ⟨c, t, hct, hcd⟩ := dumpNat_head (m + 1)
    show scanIntLit ('-' :: dumpNat (m + 1) ++ rest) = some (Int.negSucc m, rest)
    rw [hct]
    simp only [List.cons_append, scanIntLit, if_pos rfl]
    rw [if_pos hcd]
    simp only [scanDigits_dumpNat h.noDigit c t hct]
    have : -((m + 1 : Nat) : Int) = Int.negSucc m := by
      rw [Int.negSucc_eq]
      push_cast
      ring
    rw [this]
    exact intOnlyAfter_ok h

end RedditMCP

namespace RedditMCP

theorem char_valid_nat (c : Char) : c.toNat < 0xd800 ∨ (0xdfff < c.toNat ∧ c.toNat < 0x110000) :=
  c.valid

end RedditMCP

namespace RedditMCP

theorem readHex4_hex4Chars {n : Nat} (h : n < 65536) (rest : List Char) :
    readHex4 (hex4Chars n ++ rest) = some (n, rest) := by
  simp [hex4Chars, readHex4, hex4Val_hex4Chars h]

theorem decodeUEsc_bmp {n : Nat} (h : n < 65536)
    (hs1 : ¬ (0xD800 ≤ n ∧ n < 0xDC00)) (hs2 : ¬ (0xDC00 ≤ n ∧ n < 0xE000))
    (rest : List Char) :
    decodeUEsc (hex4Chars n ++ rest) = some (Char.ofNat n, rest) := by
  rw [decodeUEsc]
  rw [readHex4_hex4Chars h]
  simp only [if_neg hs1, if_neg hs2]

theorem decodeUEsc_supp {t : Nat} (h : t < 0x100000) (rest : List Char) :
    decodeUEsc (hex4Chars (0xD800 + t / 0x400) ++ '\\' :: 'u' :: hex4Chars (0xDC00 + t % 0x400) ++ rest)
      = some (Char.ofNat (0x10000 + t), rest) := by
  have hmod := Nat.mod_lt t (show 0 < 0x400 by omega)
  have hdiv : t / 0x400 < 0x400 := by omega
  have hhi : 0xD800 + t / 0x400 < 65536 := by omega
  have hlo : 0xDC00 + t % 0x400 < 65536 := by omega
  have hc1 : 0xD800 ≤ 0xD800 + t / 0x400 ∧ 0xD800 + t / 0x400 < 0xDC00 := ⟨by omega, by omega⟩
  have hc2 : 0xDC00 ≤ 0xDC00 + t % 0x400 ∧ 0xDC00 + t % 0x400 < 0xE000 := ⟨by omega, by omega⟩
  have hcomb : 0x10000 + t / 0x400 * 0x400 + t % 0x400 = 0x10000 + t := by
    have := Nat.div_add_mod t 0x400
    omega
  rw [decodeUEsc]
  simp only [List.append_assoc, List.cons_append]
  rw [readHex4_hex4Chars hhi]
  simp only [if_pos hc1, eq_self_iff_true, and_self, if_true, ite_true]
  rw [readHex4_hex4Chars hlo]
  simp only [if_pos hc2, Nat.add_sub_cancel_left, Option.some.injEq, Prod.mk.injEq, and_true]
  rw [hcomb]

theorem parseStrBody_cons_esc {fuel : Nat} {cs : List Char} {d : Char} {cs2 : List Char}
    (hd : decodeEsc cs = some (d, cs2)) :
    parseStrBody (fuel + 1) ('\\' :: cs) = consStr d (parseStrBody fuel cs2) := by
  rw [parseStrBody]
  rw [if_neg (show ¬ ('\\' : Char) = '"' by decide), if_pos rfl, hd]

theorem decodeEsc_quot (cs : List Char) : decodeEsc ('"' :: cs) = some ('"', cs) := by
  simp [decodeEsc]

theorem decodeEsc_backslash (cs : List Char) : decodeEsc ('\\' :: cs) = some ('\\', cs) := by
  simp [decodeEsc]

theorem decodeEsc_b (cs : List Char) : decodeEsc ('b' :: cs) = some ('\x08', cs) := by
  simp [decodeEsc]

theorem decodeEsc_f (cs : List Char) : decodeEsc ('f' :: cs) = some ('\x0c', cs) := by
  simp [decodeEsc]

theorem decodeEsc_n (cs : List Char) : decodeEsc ('n' :: cs) = some ('\n', cs) := by
  simp [decodeEsc]

theorem decodeEsc_r (cs : List Char) : decodeEsc ('r' :: cs) = some ('\r', cs) := by
  simp [decodeEsc]

theorem decodeEsc_t (cs : List Char) : decodeEsc ('t' :: cs) = some ('\t', cs) := by
  simp [decodeEsc]

theorem decodeEsc_u (cs : List Char) : decodeEsc ('u' :: cs) = decodeUEsc cs := by
  simp [decodeEsc]

theorem parseStrBody_escapeChar (c : Char) (fuel : Nat) (rest : List Char) :
    parseStrBody (fuel + 1) (escapeChar c ++ rest) = consStr c (parseStrBody fuel rest) := by
  by_cases h1 : c = '"'
  · subst h1
    exact parseStrBody_cons_esc (decodeEsc_quot rest)
  by_cases h2 : c = '\\'
  · subst h2
    exact parseStrBody_cons_esc (decodeEsc_backslash rest)
  by_cases h3 : c = '\x08'
  · subst h3
    exact parseStrBody_cons_esc (decodeEsc_b rest)
  by_cases h4 : c = '\x0c'
  · subst h4
    exact parseStrBody_cons_esc (decodeEsc_f rest)
  by_cases h5 : c = '\n'
  · subst h5
    exact parseStrBody_cons_esc (decodeEsc_n rest)
  by_cases h6 : c = '\r'
  · subst h6
    exact parseStrBody_cons_esc (decodeEsc_r rest)
  by_cases h7 : c = '\t'
  · subst h7
    exact parseStrBody_cons_esc (decodeEsc_t rest)
  by_cases h8 : c.toNat < 0x20
  · have hs1 : ¬ (0xD800 ≤ c.toNat ∧ c.toNat < 0xDC00) := by omega
    have hs2 : ¬ (0xDC00 ≤ c.toNat ∧ c.toNat < 0xE000) := by omega
    have hesc : escapeChar c = '\\' :: 'u' :: hex4Chars c.toNat := by
      rw [escapeChar, if_neg h1, if_neg h2, if_neg h3, if_neg h4, if_neg h5, if_neg h6,
        if_neg h7, if_pos h8]
    rw [hesc, List.cons_append, List.cons_append]
    rw [parseStrBody_cons_esc (by rw [decodeEsc_u, decodeUEsc_bmp (by omega) hs1 hs2])]
    rw [Char.ofNat_toNat]
  by_cases h9 : c.toNat < 0x7f
  · have hesc : escapeChar c = [c] := by
      rw [escapeChar, if_neg h1, if_neg h2, if_neg h3, if_neg h4, if_neg h5, if_neg h6,
        if_neg h7, if_neg h8, if_pos h9]
    rw [hesc, List.singleton_append, parseStrBody]
    rw [if_neg h1, if_neg h2, if_neg h8]
  by_cases h10 : c.toNat < 0x10000
  · have hval := char_valid_nat c
    have hs1 : ¬ (0xD800 ≤ c.toNat ∧ c.toNat < 0xDC00) := by omega
    have hs2 : ¬ (0xDC00 ≤ c.toNat ∧ c.toNat < 0xE000) := by omega
    have hesc : escapeChar c = '\\' :: 'u' :: hex4Chars c.toNat := by
      rw [escapeChar, if_neg h1, if_neg h2, if_neg h3, if_neg h4, if_neg h5, if_neg h6,
        if_neg h7, if_neg h8, if_neg h9, if_pos h10]
    rw [hesc, List.cons_append, List.cons_append]
    rw [parseStrBody_cons_esc (by rw [decodeEsc_u, decodeUEsc_bmp h10 hs1 hs2])]
    rw [Char.ofNat_toNat]
  · have hval := char_valid_nat c
    have ht : c.toNat - 0x10000 < 0x100000 := by omega
    have hback : 0x10000 + (c.toNat - 0x10000) = c.toNat := by omega
    have hesc : escapeChar c = '\\' :: 'u' :: (hex4Chars (0xD800 + (c.toNat - 0x10000) / 0x400)
        ++ '\\' :: 'u' :: hex4Chars (0xDC00 + (c.toNat - 0x10000) % 0x400)) := by
      rw [escapeChar, if_neg h1, if_neg h2, if_neg h3, if_neg h4, if_neg h5, if_neg h6,
        if_neg h7, if_neg h8, if_neg h9, if_neg h10]
      simp only [List.cons_append, List.append_assoc]
    rw [hesc]
    simp only [List.cons_append, List.append_assoc]
    rw [parseStrBody_cons_esc (by
      rw [decodeEsc_u]
      have := decodeUEsc_supp ht rest
      simpa only [List.append_assoc, List.cons_append] using this)]
    rw [hback, Char.ofNat_toNat]

theorem parseStrBody_escapeList : ∀ (l : List Char) (fuel : Nat) (rest : List Char),
    l.length + 1 ≤ fuel →
    parseStrBody fuel (escapeList l ++ '"' :: rest) = some (l, rest) := by
  intro l
  induction l with
  | nil =>
    intro fuel rest hf
    obtain ⟨f, rfl⟩ : ∃ f, fuel = f + 1 := ⟨fuel - 1, by omega⟩
    rw [escapeList, List.nil_append, parseStrBody, if_pos rfl]
  | cons c cs ih =>
    intro fuel rest hf
    obtain ⟨f, rfl⟩ : ∃ f, fuel = f + 1 := ⟨fuel - 1, by omega⟩
    rw [escapeList, List.append_assoc, parseStrBody_escapeChar c f _,
      ih f rest (by simp at hf; omega)]
    rfl

end RedditMCP

namespace RedditMCP

theorem hexDigitChar_ne_nl (d : Nat) : hexDigitChar d ≠ '\n' := by
  unfold hexDigitChar
  split <;> decide

theorem digitChar_ne_nl (d : Nat) : digitChar d ≠ '\n' := by
  unfold digitChar
  split <;> decide

theorem nl_not_mem_escapeChar (c : Char) : '\n' ∉ escapeChar c := by
  have hsym : ∀ d : Nat, '\n' ≠ hexDigitChar d := fun d => (hexDigitChar_ne_nl d).symm
  unfold escapeChar
  split_ifs with h1 h2 h3 h4 h5 h6 h7 h8 h9 h10
  · decide
  · decide
  · decide
  · decide
  · decide
  · decide
  · decide
  · simp [hex4Chars, hsym]
  · simp only [List.mem_singleton]
    intro he
    exact h8 (by rw [← he]; decide)
  · simp [hex4Chars, hsym]
  · simp [hex4Chars, hsym]

theorem nl_not_mem_escapeList : ∀ l : List Char, '\n' ∉ escapeList l := by
  intro l
  induction l with
  | nil => simp [escapeList]
  | cons c cs ih =>
    rw [escapeList, List.mem_append]
    rintro (h | h)
    · exact nl_not_mem_escapeChar c h
    · exact ih h

theorem nl_not_mem_dumpNat (n : Nat) : '\n' ∉ dumpNat n := by
  intro h
  have := char_isDigit_iff.mp (dumpNat_all_digits n _ h)
  simp at this

theorem nl_not_mem_dumpInt (i : Int) : '\n' ∉ dumpInt i := by
  cases i with
  | ofNat m => exact nl_not_mem_dumpNat m
  | negSucc m =>
    rw [dumpInt, List.mem_cons]
    rintro (h | h)
    · exact absurd h (by decide)
    · exact nl_not_mem_dumpNat (m + 1) h

theorem nl_not_mem_dumpStringLit (s : String) : '\n' ∉ dumpStringLit s := by
  rw [dumpStringLit]
  intro h
  rcases List.mem_cons.mp h with h | h
  · exact absurd h (by decide)
  rcases List.mem_append.mp h with h | h
  · exact nl_not_mem_escapeList s.data h
  · simp only [List.mem_singleton] at h
    exact absurd h (by decide)

theorem nl_not_mem_dumpJson : ∀ j : Json, '\n' ∉ dumpJson j := by
  refine dumpJson.induct (fun j => '\n' ∉ dumpJson j)
    (fun kvs => '\n' ∉ dumpMembersRest kvs)
    (fun xs => '\n' ∉ dumpElemsRest xs)
    ?_ ?_ ?_ ?_ ?_ ?_ ?_ ?_ ?_ ?_ ?_ ?_ ?_
  · decide
  · decide
  · decide
  · intro n
    exact nl_not_mem_dumpInt n
  · intro s
    exact nl_not_mem_dumpStringLit s
  · decide
  · intro x xs ihx ihxs
    rw [dumpJson]
    intro h
    rcases List.mem_cons.mp h with h | h
    · exact absurd h (by decide)
    rcases List.mem_append.mp h with h | h
    · exact ihx h
    · exact ihxs h
  · decide
  · intro kv kvs ihv ihkvs
    rw [dumpJson]
    intro h
    rcases List.mem_cons.mp h with h | h
    · exact absurd h (by decide)
    rcases List.mem_append.mp h with h | h
    · rcases List.mem_append.mp h with h | h
      · exact nl_not_mem_dumpStringLit kv.1 h
      rcases List.mem_cons.mp h with h | h
      · exact absurd h (by decide)
      rcases List.mem_cons.mp h with h | h
      · exact absurd h (by decide)
      · exact ihv h
    · exact ihkvs h
  · decide
  · intro x xs ihx ihxs
    rw [dumpElemsRest]
    intro h
    rcases List.mem_cons.mp h with h | h
    · exact absurd h (by decide)
    rcases List.mem_cons.mp h with h | h
    · exact absurd h (by decide)
    rcases List.mem_append.mp h with h | h
    · exact ihx h
    · exact ihxs h
  · decide
  · intro kv kvs ihv ihkvs
    rw [dumpMembersRest]
    intro h
    rcases List.mem_cons.mp h with h | h
    · exact absurd h (by decide)
    rcases List.mem_cons.mp h with h | h
    · exact absurd h (by decide)
    rcases List.mem_append.mp h with h | h
    · rcases List.mem_append.mp h with h | h
      · exact nl_not_mem_dumpStringLit kv.1 h
      rcases List.mem_cons.mp h with h | h
      · exact absurd h (by decide)
      rcases List.mem_cons.mp h with h | h
      · exact absurd h (by decide)
      · exact ihv h
    · exact ihkvs h

end RedditMCP

namespace RedditMCP

theorem char_ne_of_toNat_ne {c d : Char} (h : c.toNat ≠ d.toNat) : c ≠ d :=
  fun he => h (he ▸ rfl)

theorem headProps {c : Char}
    (hne : c.toNat ≠ 32 ∧ c.toNat ≠ 9 ∧ c.toNat ≠ 10 ∧ c.toNat ≠ 13 ∧ c.toNat ≠ 11 ∧
      c.toNat ≠ 12 ∧ c.toNat ≠ 93 ∧ c.toNat ≠ 125) :
    isJsonWs c = false ∧ isPyWs c = false ∧ c ≠ ']' ∧ c ≠ '}' := by
  obtain ⟨h32, h9, h10, h13, h11, h12, h93, h125⟩ := hne
  refine ⟨?_, ?_, ?_, ?_⟩
  · unfold isJsonWs
    simp only [Bool.or_eq_false_iff, beq_eq_false_iff_ne]
    exact ⟨⟨⟨char_ne_of_toNat_ne h32, char_ne_of_toNat_ne h9⟩, char_ne_of_toNat_ne h10⟩,
      char_ne_of_toNat_ne h13⟩
  · unfold isPyWs
    simp only [Bool.or_eq_false_iff, beq_eq_false_iff_ne]
    exact ⟨⟨⟨⟨⟨char_ne_of_toNat_ne h32, char_ne_of_toNat_ne h9⟩, char_ne_of_toNat_ne h10⟩,
      char_ne_of_toNat_ne h13⟩, char_ne_of_toNat_ne h11⟩, char_ne_of_toNat_ne h12⟩
  · exact char_ne_of_toNat_ne h93
  · exact char_ne_of_toNat_ne h125

theorem dumpInt_head (i : Int) :
    ∃ c t, dumpInt i = c :: t ∧ (48 ≤ c.toNat ∧ c.toNat ≤ 57 ∨ c.toNat = 45) := by
  cases i with
  | ofNat m =>
    obtain ⟨c, t, h, hd⟩ := dumpNat_head m
    exact ⟨c, t, h, Or.inl (char_isDigit_iff.mp hd)⟩
  | negSucc m =>
    exact ⟨'-', dumpNat (m + 1), rfl, Or.inr rfl⟩

theorem dumpJson_head (j : Json) : ∃ c t, dumpJson j = c :: t ∧ isJsonWs c = false ∧
    isPyWs c = false ∧ c ≠ ']' ∧ c ≠ '}' := by
  cases j with
  | null => exact ⟨'n', _, rfl, by decide, by decide, by decide, by decide⟩
  | bool b =>
    cases b
    · exact ⟨'f', _, rfl, by decide, by decide, by decide, by decide⟩
    · exact ⟨'t', _, rfl, by decide, by decide, by decide, by decide⟩
  | num n =>
    obtain ⟨c, t, h, hd⟩ := dumpInt_head n
    obtain ⟨p1, p2, p3, p4⟩ := headProps (c := c) (by omega)
    exact ⟨c, t, h, p1, p2, p3, p4⟩
  | str s =>
    refine ⟨'"', escapeList s.data ++ ['"'], ?_, by decide, by decide, by decide, by decide⟩
    rw [dumpJson]
    rfl
  | arr xs =>
    cases xs with
    | nil => exact ⟨'[', _, rfl, by decide, by decide, by decide, by decide⟩
    | cons x xs => exact ⟨'[', _, rfl, by decide, by decide, by decide, by decide⟩
  | obj kvs =>
    cases kvs with
    | nil => exact ⟨'{', _, rfl, by decide, by decide, by decide, by decide⟩
    | cons kv kvs => exact ⟨'{', _, rfl, by decide, by decide, by decide, by decide⟩

theorem dumpJson_ne_nil (j : Json) : dumpJson j ≠ [] := by
  obtain ⟨c, t, h, _⟩ := dumpJson_head j
  rw [h]
  simp

theorem dumpElemsRest_head (xs : List Json) :
    ∃ c t, dumpElemsRest xs = c :: t ∧ (c = ']' ∨ c = ',') := by
  cases xs with
  | nil => exact ⟨']', [], rfl, Or.inl rfl⟩
  | cons x xs => exact ⟨',', _, rfl, Or.inr rfl⟩

theorem dumpMembersRest_head (kvs : List (String × Json)) :
    ∃ c t, dumpMembersRest kvs = c :: t ∧ (c = '}' ∨ c = ',') := by
  cases kvs with
  | nil => exact ⟨'}', [], rfl, Or.inl rfl⟩
  | cons kv kvs => exact ⟨',', _, rfl, Or.inr rfl⟩

theorem dumpNat_split_last (n : Nat) :
    ∃ mid c, dumpNat n = mid ++ [c] ∧ c.isDigit = true := by
  rw [dumpNat]
  split
  · next h => exact ⟨[], digitChar n, rfl, digitChar_isDigit h⟩
  · next h =>
    exact ⟨dumpNat (n / 10), digitChar (n % 10), rfl, digitChar_isDigit (by omega)⟩

theorem dumpInt_split_last (i : Int) :
    ∃ mid c, dumpInt i = mid ++ [c] ∧ isPyWs c = false := by
  cases i with
  | ofNat m =>
    obtain ⟨mid, c, h, hd⟩ := dumpNat_split_last m
    have := char_isDigit_iff.mp hd
    exact ⟨mid, c, h, (headProps (by omega)).2.1⟩
  | negSucc m =>
    obtain ⟨mid, c, h, hd⟩ := dumpNat_split_last (m + 1)
    have := char_isDigit_iff.mp hd
    refine ⟨'-' :: mid, c, ?_, (headProps (by omega)).2.1⟩
    rw [dumpInt, h, List.cons_append]

theorem dumpElemsRest_ends (xs : List Json) :
    ∃ mid, dumpElemsRest xs = mid ++ [']'] := by
  induction xs with
  | nil => exact ⟨[], rfl⟩
  | cons x xs ih =>
    obtain ⟨mid, hmid⟩ := ih
    refine ⟨',' :: ' ' :: (dumpJson x ++ mid), ?_⟩
    rw [dumpElemsRest, hmid]
    simp [List.cons_append, List.append_assoc]

theorem dumpMembersRest_ends (kvs : List (String × Json)) :
    ∃ mid, dumpMembersRest kvs = mid ++ ['}'] := by
  induction kvs with
  | nil => exact ⟨[], rfl⟩
  | cons kv kvs ih =>
    obtain ⟨mid, hmid⟩ := ih
    refine ⟨',' :: ' ' :: ((dumpStringLit kv.1 ++ ':' :: ' ' :: dumpJson kv.2) ++ mid), ?_⟩
    rw [dumpMembersRest, hmid]
    simp [List.cons_append, List.append_assoc]

theorem dumpJson_split_last (j : Json) :
    ∃ mid c, dumpJson j = mid ++ [c] ∧ isPyWs c = false := by
  cases j with
  | null => exact ⟨['n', 'u', 'l'], 'l', rfl, by decide⟩
  | bool b =>
    cases b
    · exact ⟨['f', 'a', 'l', 's'], 'e', rfl, by decide⟩
    · exact ⟨['t', 'r', 'u'], 'e', rfl, by decide⟩
  | num n => exact dumpInt_split_last n
  | str s =>
    refine ⟨'"' :: escapeList s.data, '"', ?_, by decide⟩
    simp [dumpJson, dumpStringLit]
  | arr xs =>
    cases xs with
    | nil => exact ⟨['['], ']', rfl, by decide⟩
    | cons x xs =>
      obtain ⟨mid, hmid⟩ := dumpElemsRest_ends xs
      refine ⟨'[' :: (dumpJson x ++ mid), ']', ?_, by decide⟩
      rw [dumpJson, hmid]
      simp [List.cons_append, List.append_assoc]
  | obj kvs =>
    cases kvs with
    | nil => exact ⟨['{'], '}', rfl, by decide⟩
    | cons kv kvs =>
      obtain ⟨mid, hmid⟩ := dumpMembersRest_ends kvs
      refine ⟨'{' :: ((dumpStringLit kv.1 ++ ':' :: ' ' :: dumpJson kv.2) ++ mid), '}', ?_, by decide⟩
      rw [dumpJson, hmid]
      simp [List.cons_append, List.append_assoc]

theorem pyStrip_wire (j : Json) : pyStrip (dumpJson j ++ ['\n']) = dumpJson j := by
  obtain ⟨c, t, hhead, _, hpyw, _, _⟩ := dumpJson_head j
  obtain ⟨mid, d, hlast, hlpw⟩ := dumpJson_split_last j
  unfold pyStrip
  have hfront : (dumpJson j ++ ['\n']).dropWhile isPyWs = dumpJson j ++ ['\n'] := by
    rw [hhead]
    simp [List.dropWhile_cons, hpyw]
  rw [hfront, hlast]
  rw [show (mid ++ [d]) ++ ['\n'] = mid ++ [d, '\n'] by simp]
  rw [List.reverse_append]
  simp only [List.reverse_cons, List.reverse_nil, List.nil_append, List.cons_append,
    List.dropWhile_cons]
  simp [hlpw, show isPyWs '\n' = true from by decide]

theorem readline_wire : ∀ (l rest : List Char), '\n' ∉ l →
    readline (l ++ '\n' :: rest) = (l ++ ['\n'], rest) := by
  intro l
  induction l with
  | nil =>
    intro rest _
    simp [readline]
  | cons c cs ih =>
    intro rest hnl
    have hc : ¬ c = '\n' := fun he => hnl (by rw [he]; exact List.mem_cons_self _ _)
    rw [List.cons_append, readline]
    rw [if_neg hc, ih rest (fun hm => hnl (List.mem_cons_of_mem _ hm))]
    simp

end RedditMCP

namespace RedditMCP

theorem skipWs_cons_nonws {c : Char} (cs : List Char) (h : isJsonWs c = false) :
    skipWs (c :: cs) = c :: cs := by
  rw [skipWs]
  simp [h]

theorem skipWs_space (l : List Char) : skipWs (' ' :: l) = skipWs l := by
  rw [skipWs]
  simp [isJsonWs]

theorem skipWs_dump (j : Json) (rest : List Char) :
    skipWs (dumpJson j ++ rest) = dumpJson j ++ rest := by
  obtain ⟨c, t, hh, hws, _, _, _⟩ := dumpJson_head j
  rw [hh, List.cons_append, skipWs_cons_nonws _ hws]

theorem skipWs_elems (xs : List Json) (rest : List Char) :
    skipWs (dumpElemsRest xs ++ rest) = dumpElemsRest xs ++ rest := by
  obtain ⟨c, t, hh, hor⟩ := dumpElemsRest_head xs
  rw [hh, List.cons_append, skipWs_cons_nonws]
  rcases hor with h | h <;> subst h <;> decide

theorem skipWs_members (kvs : List (String × Json)) (rest : List Char) :
    skipWs (dumpMembersRest kvs ++ rest) = dumpMembersRest kvs ++ rest := by
  obtain ⟨c, t, hh, hor⟩ := dumpMembersRest_head kvs
  rw [hh, List.cons_append, skipWs_cons_nonws]
  rcases hor with h | h <;> subst h <;> decide

theorem tailOk_elems (xs : List Json) (rest : List Char) :
    TailOk (dumpElemsRest xs ++ rest) := by
  obtain ⟨c, t, hh, hor⟩ := dumpElemsRest_head xs
  rw [hh, List.cons_append]
  rcases hor with h | h <;> subst h <;>
    exact ⟨by decide, by decide, by decide, by decide⟩

theorem tailOk_members (kvs : List (String × Json)) (rest : List Char) :
    TailOk (dumpMembersRest kvs ++ rest) := by
  obtain ⟨c, t, hh, hor⟩ := dumpMembersRest_head kvs
  rw [hh, List.cons_append]
  rcases hor with h | h <;> subst h <;>
    exact ⟨by decide, by decide, by decide, by decide⟩

theorem dumpJson_len_pos (j : Json) : 1 ≤ (dumpJson j).length := by
  obtain ⟨c, t, hh, _⟩ := dumpJson_head j
  rw [hh]
  simp

theorem dumpElemsRest_len_pos (xs : List Json) : 1 ≤ (dumpElemsRest xs).length := by
  obtain ⟨c, t, hh, _⟩ := dumpElemsRest_head xs
  rw [hh]
  simp

theorem dumpMembersRest_len_pos (kvs : List (String × Json)) :
    1 ≤ (dumpMembersRest kvs).length := by
  obtain ⟨c, t, hh, _⟩ := dumpMembersRest_head kvs
  rw [hh]
  simp

theorem escapeChar_len_pos (c : Char) : 1 ≤ (escapeChar c).length := by
  unfold escapeChar
  split_ifs <;> simp [hex4Chars]

theorem escapeList_len_ge : ∀ l : List Char, l.length ≤ (escapeList l).length := by
  intro l
  induction l with
  | nil => simp [escapeList]
  | cons c cs ih =>
    rw [escapeList, List.length_append, List.length_cons]
    have := escapeChar_len_pos c
    omega

theorem string_eta (s : String) : String.mk s.data = s := rfl

end RedditMCP

namespace RedditMCP

theorem dumpStringLit_len (s : String) :
    (dumpStringLit s).length = 2 + (escapeList s.data).length := by
  rw [dumpStringLit]
  simp
  omega

theorem scan_dump : ∀ fuel : Nat,
    (∀ (j : Json) (cs rest : List Char), skipWs cs = dumpJson j ++ rest →
      2 * (dumpJson j).length ≤ fuel → TailOk rest →
      scanValue fuel cs = some (j, rest)) ∧
    (∀ (xs : List Json) (cs rest : List Char), skipWs cs = dumpElemsRest xs ++ rest →
      2 * (dumpElemsRest xs).length ≤ fuel → TailOk rest →
      scanArrayTail fuel cs = some (xs, rest)) ∧
    (∀ (kvs : List (String × Json)) (cs rest : List Char),
      skipWs cs = dumpMembersRest kvs ++ rest →
      2 * (dumpMembersRest kvs).length ≤ fuel → TailOk rest →
      scanObjectTail fuel cs = some (kvs, rest)) := by
  intro fuel
  induction fuel using Nat.strongRecOn with
  | ind fuel IH =>
  refine ⟨?_, ?_, ?_⟩
  · intro j cs rest hcs hfuel htail
    have hlen := dumpJson_len_pos j
    obtain ⟨f, rfl⟩ : ∃ f, fuel = f + 1 := ⟨fuel - 1, by omega⟩
    rw [scanValue, hcs]
    cases j with
    | null =>
      simp only [dumpJson, List.cons_append, List.nil_append]
      simp [expectChars]
    | bool b =>
      cases b <;>
        · simp only [dumpJson, List.cons_append, List.nil_append]
          simp [expectChars]
    | num n =>
      obtain ⟨c, t, hct, hd⟩ := dumpInt_head n
      have h1 : ¬ c = 'n' := char_ne_of_toNat_ne
        (by have : ('n' : Char).toNat = 110 := rfl; omega)
      have h2 : ¬ c = 't' := char_ne_of_toNat_ne
        (by have : ('t' : Char).toNat = 116 := rfl; omega)
      have h3 : ¬ c = 'f' := char_ne_of_toNat_ne
        (by have : ('f' : Char).toNat = 102 := rfl; omega)
      have h4 : ¬ c = '"' := char_ne_of_toNat_ne
        (by have : ('"' : Char).toNat = 34 := rfl; omega)
      have h5 : ¬ c = '[' := char_ne_of_toNat_ne
        (by have : ('[' : Char).toNat = 91 := rfl; omega)
      have h6 : ¬ c = '{' := char_ne_of_toNat_ne
        (by have : ('{' : Char).toNat = 123 := rfl; omega)
      simp only [dumpJson]
      rw [hct, List.cons_append]
      simp only [if_neg h1, if_neg h2, if_neg h3, if_neg h4, if_neg h5, if_neg h6]
      rw [← List.cons_append, ← hct]
      rw [scanIntLit_dumpInt htail]
      rfl
    | str s =>
      have hbound : s.data.length + 1 ≤ f := by
        have h1 := escapeList_len_ge s.data
        have h2 : (dumpJson (Json.str s)).length = 2 + (escapeList s.data).length := by
          rw [dumpJson, dumpStringLit_len]
        omega
      simp only [dumpJson, dumpStringLit, List.cons_append, List.append_assoc,
        List.singleton_append, List.nil_append]
      rw [parseStrBody_escapeList s.data f rest hbound]
      simp [string_eta]
    | arr xs =>
      cases xs with
      | nil =>
        obtain ⟨f2, rfl⟩ : ∃ f2, f = f2 + 1 := ⟨f - 1, by simp [dumpJson] at hfuel; omega⟩
        simp only [dumpJson, List.cons_append, List.nil_append, ite_true, ite_false]
        rw [scanArrayRest, skipWs_cons_nonws _ (by decide)]
        simp
      | cons x xs =>
        have hlx := dumpJson_len_pos x
        have hle := dumpElemsRest_len_pos xs
        have hlarr : (dumpJson (Json.arr (x :: xs))).length =
            1 + (dumpJson x).length + (dumpElemsRest xs).length := by
          rw [dumpJson]
          simp
          omega
        obtain ⟨f2, rfl⟩ : ∃ f2, f = f2 + 1 := ⟨f - 1, by omega⟩
        obtain ⟨cx, tx, hhx, hwsx, _, hnx, _⟩ := dumpJson_head x
        simp only [dumpJson, List.cons_append, List.append_assoc, ite_true, ite_false]
        rw [if_neg (show ¬ ('[' : Char) = 'n' by decide),
          if_neg (show ¬ ('[' : Char) = 't' by decide),
          if_neg (show ¬ ('[' : Char) = 'f' by decide),
          if_neg (show ¬ ('[' : Char) = '"' by decide)]
        rw [scanArrayRest, skipWs_dump x, hhx, List.cons_append]
        simp only [if_neg hnx]
        have hSV := (IH f2 (by omega)).1
        have hcs2 : skipWs (cx :: (tx ++ (dumpElemsRest xs ++ rest))) =
            dumpJson x ++ (dumpElemsRest xs ++ rest) := by
          rw [skipWs_cons_nonws _ hwsx, hhx, List.cons_append]
        rw [← List.cons_append, ← hhx] at hcs2 ⊢
        rw [hSV x _ _ hcs2 (by omega) (tailOk_elems xs rest)]
        have hSAT := (IH f2 (by omega)).2.1
        simp only [hSAT xs _ rest (skipWs_elems xs rest) (by omega) htail]
    | obj kvs =>
      cases kvs with
      | nil =>
        obtain ⟨f2, rfl⟩ : ∃ f2, f = f2 + 1 := ⟨f - 1, by simp [dumpJson] at hfuel; omega⟩
        simp only [dumpJson, List.cons_append, List.nil_append, ite_true, ite_false]
        rw [scanObjectRest, skipWs_cons_nonws _ (by decide)]
        simp
      | cons kv kvs =>
        have hlv := dumpJson_len_pos kv.2
        have hlm := dumpMembersRest_len_pos kvs
        have hesck := escapeList_len_ge kv.1.data
        have hlobj : (dumpJson (Json.obj (kv :: kvs))).length =
            1 + ((2 + (escapeList kv.1.data).length) + 2 + (dumpJson kv.2).length)
              + (dumpMembersRest kvs).length := by
          rw [dumpJson]
          simp [dumpStringLit_len]
          omega
        obtain ⟨f2, rfl⟩ : ∃ f2, f = f2 + 1 := ⟨f - 1, by omega⟩
        obtain ⟨f3, rfl⟩ : ∃ f3, f2 = f3 + 1 := ⟨f2 - 1, by omega⟩
        simp only [dumpJson, dumpStringLit, List.cons_append, List.append_assoc,
          List.nil_append, ite_true, ite_false]
        rw [if_neg (show ¬ ('{' : Char) = 'n' by decide),
          if_neg (show ¬ ('{' : Char) = 't' by decide),
          if_neg (show ¬ ('{' : Char) = 'f' by decide),
          if_neg (show ¬ ('{' : Char) = '"' by decide),
          if_neg (show ¬ ('{' : Char) = '[' by decide)]
        rw [scanObjectRest, skipWs_cons_nonws _ (by decide)]
        simp only [if_neg (show ¬ ('"' : Char) = '}' by decide), ite_true, ite_false]
        rw [scanMember]
        rw [parseStrBody_escapeList kv.1.data f3 _ (by omega)]
        simp only [show ∀ l : List Char, skipWs (':' :: l) = ':' :: l from
          fun l => skipWs_cons_nonws l (by decide), ite_true, ite_false]
        have hSV := (IH f3 (by omega)).1
        have hcs3 : skipWs (' ' :: (dumpJson kv.2 ++ (dumpMembersRest kvs ++ rest))) =
            dumpJson kv.2 ++ (dumpMembersRest kvs ++ rest) := by
          rw [skipWs_space, skipWs_dump]
        rw [hSV kv.2 _ _ hcs3 (by omega) (tailOk_members kvs rest)]
        have hSOT := (IH (f3 + 1) (by omega)).2.2
        simp only [hSOT kvs _ rest (skipWs_members kvs rest) (by omega) htail, string_eta]
  · intro xs cs rest hcs hfuel htail
    cases xs with
    | nil =>
      obtain ⟨f, rfl⟩ : ∃ f, fuel = f + 1 := ⟨fuel - 1, by simp [dumpElemsRest] at hfuel; omega⟩
      rw [scanArrayTail, hcs]
      simp only [dumpElemsRest, List.cons_append, List.nil_append]
      simp
    | cons x xs =>
      have hlx := dumpJson_len_pos x
      have hle := dumpElemsRest_len_pos xs
      have hlcons : (dumpElemsRest (x :: xs)).length =
          2 + (dumpJson x).length + (dumpElemsRest xs).length := by
        rw [dumpElemsRest]
        simp
        omega
      obtain ⟨f, rfl⟩ : ∃ f, fuel = f + 1 := ⟨fuel - 1, by omega⟩
      rw [scanArrayTail, hcs]
      simp only [dumpElemsRest, List.cons_append, List.append_assoc]
      rw [if_neg (show ¬ (',' : Char) = ']' by decide)]
      have hSV := (IH f (by omega)).1
      have hcs2 : skipWs (' ' :: (dumpJson x ++ (dumpElemsRest xs ++ rest))) =
          dumpJson x ++ (dumpElemsRest xs ++ rest) := by
        rw [skipWs_space, skipWs_dump]
      rw [hSV x _ _ hcs2 (by omega) (tailOk_elems xs rest)]
      have hSAT := (IH f (by omega)).2.1
      simp only [hSAT xs _ rest (skipWs_elems xs rest) (by omega) htail]
      simp
  · intro kvs cs rest hcs hfuel htail
    cases kvs with
    | nil =>
      obtain ⟨f, rfl⟩ : ∃ f, fuel = f + 1 :=
        ⟨fuel - 1, by simp [dumpMembersRest] at hfuel; omega⟩
      rw [scanObjectTail, hcs]
      simp only [dumpMembersRest, List.cons_append, List.nil_append]
      simp
    | cons kv kvs =>
      have hlv := dumpJson_len_pos kv.2
      have hlm := dumpMembersRest_len_pos kvs
      have hesck := escapeList_len_ge kv.1.data
      have hlcons : (dumpMembersRest (kv :: kvs)).length =
          2 + ((2 + (escapeList kv.1.data).length) + 2 + (dumpJson kv.2).length)
            + (dumpMembersRest kvs).length := by
        rw [dumpMembersRest]
        simp [dumpStringLit_len]
        omega
      obtain ⟨f, rfl⟩ : ∃ f, fuel = f + 1 := ⟨fuel - 1, by omega⟩
      obtain ⟨f2, rfl⟩ : ∃ f2, f = f2 + 1 := ⟨f - 1, by omega⟩
      rw [scanObjectTail, hcs]
      simp only [dumpMembersRest, dumpStringLit, List.cons_append, List.append_assoc,
        List.nil_append]
      rw [if_neg (show ¬ (',' : Char) = '}' by decide)]
      rw [skipWs_space, skipWs_cons_nonws _ (by decide)]
      simp only [ite_true, ite_false]
      rw [scanMember]
      rw [parseStrBody_escapeList kv.1.data f2 _ (by omega)]
      simp only [show ∀ l : List Char, skipWs (':' :: l) = ':' :: l from
        fun l => skipWs_cons_nonws l (by decide), ite_true, ite_false]
      have hSV := (IH f2 (by omega)).1
      have hcs3 : skipWs (' ' :: (dumpJson kv.2 ++ (dumpMembersRest kvs ++ rest))) =
          dumpJson kv.2 ++ (dumpMembersRest kvs ++ rest) := by
        rw [skipWs_space, skipWs_dump]
      rw [hSV kv.2 _ _ hcs3 (by omega) (tailOk_members kvs rest)]
      have hSOT := (IH (f2 + 1) (by omega)).2.2
      simp only [hSOT kvs _ rest (skipWs_members kvs rest) (by omega) htail, string_eta]

end RedditMCP

namespace RedditMCP

theorem jsonLoads_dump (j : Json) : jsonLoads (dumpJson j) = some j := by
  rw [jsonLoads]
  have hSV := (scan_dump (2 * (dumpJson j).length + 4)).1
  have h0 : skipWs (dumpJson j) = dumpJson j ++ [] := by
    have := skipWs_dump j []
    simpa using this
  rw [hSV j (dumpJson j) [] h0 (by omega) trivial]
  simp [skipWs]

theorem readMessage_wire (msg : Json) (rest : List Char) :
    readMessage (wireBytes msg ++ rest) = .ok (msg, rest) := by
  have hr : readline (wireBytes msg ++ rest) = (dumpJson msg ++ ['\n'], rest) := by
    rw [wireBytes, List.append_assoc, List.singleton_append]
    exact readline_wire _ rest (nl_not_mem_dumpJson msg)
  rw [readMessage, hr]
  have hne : (dumpJson msg ++ ['\n']).isEmpty = false := by
    obtain ⟨c, t, hh, _⟩ := dumpJson_head msg
    rw [hh]
    simp
  simp only [hne, Bool.false_eq_true, if_false, ite_false]
  rw [pyStrip_wire, jsonLoads_dump]

end RedditMCP

namespace RedditMCP

theorem hasKey_append (l1 l2 : List (String × Json)) (k : String) :
    hasKey (l1 ++ l2) k = (hasKey l1 k || hasKey l2 k) := by
  induction l1 with
  | nil => simp [hasKey]
  | cons kv l1 ih =>
    rw [List.cons_append, hasKey, hasKey, ih, Bool.or_assoc]

/-- C9: every request envelope the client sends carries a fixed literal id:
the initialize request always has id 1, and every tools/call request has
id 2 whatever the tool name and arguments, so ids are reused rather than
drawn from a counter. -/
theorem c9_fixed_request_ids :
    requestId initializeRequest = some (Json.num 1) ∧
    (∀ (toolName : String) (arguments : Json),
      requestId (callToolRequest toolName arguments) = some (Json.num 2)) ∧
    (∀ (n1 : String) (a1 : Json) (n2 : String) (a2 : Json),
      requestId (callToolRequest n1 a1) = requestId (callToolRequest n2 a2)) := by
  refine ⟨rfl, fun _ _ => rfl, fun _ _ _ _ => rfl⟩

/-- C10: post_to_subreddit includes the content and url keys in the outgoing
arguments only when their values are truthy: a title-only call carries
exactly subreddit and title, and passing the empty string is
indistinguishable from passing None. -/
theorem c10_post_args_truthiness :
    (∀ s t, postToSubredditArgs s t none none =
      [("subreddit", Json.str s), ("title", Json.str t)]) ∧
    (∀ s t u, postToSubredditArgs s t (some "") u = postToSubredditArgs s t none u) ∧
    (∀ s t c, postToSubredditArgs s t c (some "") = postToSubredditArgs s t c none) ∧
    (∀ s t c u, hasKey (postToSubredditArgs s t c u) "content" = true ↔
      ∃ cc, c = some cc ∧ cc ≠ "") ∧
    (∀ s t c u, hasKey (postToSubredditArgs s t c u) "url" = true ↔
      ∃ uu, u = some uu ∧ uu ≠ "") := by
  refine ⟨fun s t => rfl, fun s t u => rfl, ?_, ?_, ?_⟩
  · intro s t c
    cases c with
    | none => rfl
    | some cc =>
      unfold postToSubredditArgs
      by_cases hc : cc = "" <;> simp [hc]
  · intro s t c u
    have hb1 : (("subreddit" : String) == "content") = false := by decide
    have hb2 : (("title" : String) == "content") = false := by decide
    have hbu : (("url" : String) == "content") = false := by decide
    have hbc : (("content" : String) == "content") = true := by decide
    cases c with
    | none =>
      cases u with
      | none => simp [postToSubredditArgs, hasKey_append, hasKey, hb1, hb2]
      | some uu =>
        by_cases hu : uu = "" <;>
          simp [postToSubredditArgs, hasKey_append, hasKey, hb1, hb2, hbu, hu]
    | some cc =>
      by_cases hc : cc = ""
      · subst hc
        cases u with
        | none => simp [postToSubredditArgs, hasKey_append, hasKey, hb1, hb2]
        | some uu =>
          by_cases hu : uu = "" <;>
            simp [postToSubredditArgs, hasKey_append, hasKey, hb1, hb2, hbu, hu]
      · cases u with
        | none =>
          simp [postToSubredditArgs, hasKey_append, hasKey, hb1, hb2, hbc, hc]
        | some uu =>
          by_cases hu : uu = "" <;>
            simp [postToSubredditArgs, hasKey_append, hasKey, hb1, hb2, hbc, hbu, hc, hu]
  · intro s t c u
    have hb1 : (("subreddit" : String) == "url") = false := by decide
    have hb2 : (("title" : String) == "url") = false := by decide
    have hbc : (("content" : String) == "url") = false := by decide
    have hbu : (("url" : String) == "url") = true := by decide
    cases u with
    | none =>
      cases c with
      | none => simp [postToSubredditArgs, hasKey_append, hasKey, hb1, hb2]
      | some cc =>
        by_cases hc : cc = "" <;>
          simp [postToSubredditArgs, hasKey_append, hasKey, hb1, hb2, hbc, hc]
    | some uu =>
      by_cases hu : uu = ""
      · subst hu
        cases c with
        | none => simp [postToSubredditArgs, hasKey_append, hasKey, hb1, hb2]
        | some cc =>
          by_cases hc : cc = "" <;>
            simp [postToSubredditArgs, hasKey_append, hasKey, hb1, hb2, hbc, hc]
      · cases c with
        | none =>
          simp [postToSubredditArgs, hasKey_append, hasKey, hb1, hb2, hbu, hu]
        | some cc =>
          by_cases hc : cc = "" <;>
            simp [postToSubredditArgs, hasKey_append, hasKey, hb1, hb2, hbc, hbu, hc, hu]

end RedditMCP

namespace RedditMCP

/-- C10 witness: an empty-string body produces the same wire arguments as no
body at all. -/
theorem c10_witness :
    postToSubredditArgs "python" "hello" (some "") none =
      postToSubredditArgs "python" "hello" none none :=
  c10_post_args_truthiness.2.1 "python" "hello" none

/-- C3 counterexample: on a timeout of the handshake future, the facade's
initialize returns the Python value False normally instead of raising the
timeout error to its caller. -/
theorem c3_counterexample :
    (facadeInitialize ⟨false, false⟩ none).2 = .ok false ∧
    (facadeInitialize ⟨false, false⟩ none).2 ≠ .error .initializationTimeout := by
  refine ⟨rfl, ?_⟩
  intro h
  exact Except.noConfusion h

/-- C3 (amended): when the facade's initialize does not complete in time, or
fails in any other way, the blanket exception handler swallows the failure:
initialize returns False normally, leaves the facade uninitialized, and never
raises to its caller. -/
theorem c3_facade_initialize_swallows :
    (∀ (st : SyncState) (o : InitOutcome) (e : ClientError),
      (facadeInitialize st o).2 ≠ .error e) ∧
    (∀ st : SyncState, st.initialized = false →
      (facadeInitialize st none).2 = .ok false ∧
      ((facadeInitialize st none).1).initialized = false) ∧
    (∀ (st : SyncState) (e : ClientError), st.initialized = false →
      (facadeInitialize st (some (.error e))).2 = .ok false ∧
      ((facadeInitialize st (some (.error e))).1).initialized = false) ∧
    (∀ st : SyncState, st.initialized = false →
      (facadeInitialize st (some (.ok ()))).2 = .ok true ∧
      ((facadeInitialize st (some (.ok ()))).1).initialized = true) := by
  refine ⟨?_, ?_, ?_, ?_⟩
  · intro st o e
    unfold facadeInitialize
    by_cases hi : st.initialized
    · simp [hi]
    · cases o with
      | none => simp [hi]
      | some r =>
        cases r with
        | ok u => cases u; simp [hi]
        | error e2 => simp [hi]
  · intro st hst
    unfold facadeInitialize
    simp [hst]
  · intro st e hst
    unfold facadeInitialize
    simp [hst]
  · intro st hst
    unfold facadeInitialize
    simp [hst]

/-- C3 witness: a concrete failed handshake makes initialize return False
without raising and leaves the facade uninitialized. -/
theorem c3_witness :
    (facadeInitialize ⟨false, false⟩ (some (.error .connectionClosed))).2 = .ok false ∧
    ((facadeInitialize ⟨false, false⟩ (some (.error .connectionClosed))).1).initialized
      = false :=
  c3_facade_initialize_swallows.2.2.1 ⟨false, false⟩ .connectionClosed rfl

/-- C8 counterexample: a delegated operation on a fresh facade, whose
initialize was never called (self.client is still None), fails with the
attribute error from evaluating self.client.fetch_posts, not with the
not-initialized error the claim names. -/
theorem c8_counterexample :
    facadeCall ⟨false, false⟩ (.ok (Json.str "x")) = .error .attributeError ∧
    facadeCall ⟨false, false⟩ (.ok (Json.str "x")) ≠ .error .notInitialized := by
  refine ⟨rfl, ?_⟩
  intro h
  rw [show facadeCall ⟨false, false⟩ (.ok (Json.str "x")) = .error .attributeError from rfl]
    at h
  injection h with h2
  exact ClientError.noConfusion h2

/-- C8 (amended): a delegated operation on a facade whose initialize has not
successfully completed always fails rather than silently proceeding — with
the not-initialized error when the client object exists but initialization
did not complete, and with an attribute error when no client object exists;
likewise a tool call on an RPC client whose process was never started fails
with the not-started error. -/
theorem c8_uninitialized_fails :
    (∀ (st : SyncState) (coro : Except ClientError Json), st.initialized = false →
      ∃ e, facadeCall st coro = .error e) ∧
    (∀ coro : Except ClientError Json,
      facadeCall ⟨true, false⟩ coro = .error .notInitialized) ∧
    (∀ (st : SyncState) (coro : Except ClientError Json), st.hasClient = false →
      facadeCall st coro = .error .attributeError) ∧
    (∀ (toolName : String) (arguments : Json) (stream : List Char),
      callTool false toolName arguments stream = .error .notStarted) := by
  refine ⟨?_, ?_, ?_, ?_⟩
  · intro st coro hst
    unfold facadeCall
    by_cases hc : st.hasClient
    · exact ⟨.notInitialized, by simp [hc, hst]⟩
    · exact ⟨.attributeError, by simp [hc]⟩
  · intro coro
    rfl
  · intro st coro hc
    unfold facadeCall
    simp [hc]
  · intro toolName arguments stream
    rfl

/-- C8 witness: a facade whose initialization was attempted but failed
rejects a delegated call with the not-initialized error. -/
theorem c8_witness :
    ∃ e, facadeCall ⟨true, false⟩ (.ok (Json.str "x")) = .error e :=
  c8_uninitialized_fails.1 ⟨true, false⟩ (.ok (Json.str "x")) rfl

end RedditMCP

namespace RedditMCP

theorem hasKey_of_lookupKey {kvs : List (String × Json)} {k : String} {v : Json}
    (h : lookupKey kvs k = some v) : hasKey kvs k = true := by
  induction kvs with
  | nil => exact Option.noConfusion h
  | cons kv rest ih =>
    rw [lookupKey] at h
    rw [hasKey]
    by_cases hk : kv.1 = k
    · simp [hk]
    · rw [if_neg hk] at h
      simp [ih h]

theorem lookupKey_eq_none_of_hasKey {kvs : List (String × Json)} {k : String}
    (h : hasKey kvs k = false) : lookupKey kvs k = none := by
  induction kvs with
  | nil => rfl
  | cons kv rest ih =>
    rw [hasKey, Bool.or_eq_false_iff, beq_eq_false_iff_ne] at h
    rw [lookupKey, if_neg h.1]
    exact ih h.2

/-- C1 counterexample: a successful response whose `content` sequence is
present but empty makes the tool call raise `IndexError`, not return the
empty string. -/
theorem c1_counterexample :
    callToolHandle (.obj [("result", .obj [("content", .arr [])])])
      = .error .indexError ∧
    callToolHandle (.obj [("result", .obj [("content", .arr [])])])
      ≠ .ok (.str "") := by
  refine ⟨rfl, ?_⟩
  intro h
  rw [show callToolHandle (.obj [("result", .obj [("content", .arr [])])])
    = .error .indexError from rfl] at h
  exact Except.noConfusion h

/-- C1 (amended): for a successful tool-call response (an object with no
`error` field), the call returns the string at `result.content[0].text`, and
returns the empty string when `content` is absent or when the first content
element is an object lacking a `text` field; but a `content` field that is
present and an empty sequence raises `IndexError` rather than yielding the
empty string. -/
theorem c1_call_tool_extraction :
    (∀ (kvs rkvs ckvs : List (String × Json)) (xs : List Json) (t : Json),
      hasKey kvs "error" = false →
      lookupKey kvs "result" = some (.obj rkvs) →
      lookupKey rkvs "content" = some (.arr (.obj ckvs :: xs)) →
      lookupKey ckvs "text" = some t →
      callToolHandle (.obj kvs) = .ok t) ∧
    (∀ (kvs rkvs : List (String × Json)),
      hasKey kvs "error" = false →
      lookupKey kvs "result" = some (.obj rkvs) →
      lookupKey rkvs "content" = none →
      callToolHandle (.obj kvs) = .ok (.str "")) ∧
    (∀ (kvs rkvs ckvs : List (String × Json)) (xs : List Json),
      hasKey kvs "error" = false →
      lookupKey kvs "result" = some (.obj rkvs) →
      lookupKey rkvs "content" = some (.arr (.obj ckvs :: xs)) →
      lookupKey ckvs "text" = none →
      callToolHandle (.obj kvs) = .ok (.str "")) ∧
    (∀ (kvs rkvs : List (String × Json)),
      hasKey kvs "error" = false →
      lookupKey kvs "result" = some (.obj rkvs) →
      lookupKey rkvs "content" = some (.arr []) →
      callToolHandle (.obj kvs) = .error .indexError) := by
  refine ⟨?_, ?_, ?_, ?_⟩
  · intro kvs rkvs ckvs xs t herr hres hcon htext
    simp [callToolHandle, pyInContains, pyGet, pyIndexZero, Bind.bind,
      Except.bind, herr, hres, hcon, htext]
  · intro kvs rkvs herr hres hcon
    simp [callToolHandle, pyInContains, pyGet, pyIndexZero, Bind.bind,
      Except.bind, herr, hres, hcon, lookupKey]
  · intro kvs rkvs ckvs xs herr hres hcon htext
    simp [callToolHandle, pyInContains, pyGet, pyIndexZero, Bind.bind,
      Except.bind, herr, hres, hcon, htext]
  · intro kvs rkvs herr hres hcon
    simp [callToolHandle, pyInContains, pyGet, pyIndexZero, Bind.bind,
      Except.bind, herr, hres, hcon]

/-- C1 witness: a well-formed success response yields exactly the text of
the first content element. -/
theorem c1_witness :
    callToolHandle (.obj [("result", Json.obj [("content",
      Json.arr [Json.obj [("text", Json.str "ok")]])])]) = .ok (.str "ok") :=
  c1_call_tool_extraction.1
    [("result", Json.obj [("content",
      Json.arr [Json.obj [("text", Json.str "ok")]])])]
    [("content", Json.arr [Json.obj [("text", Json.str "ok")]])]
    [("text", Json.str "ok")] [] (Json.str "ok") rfl rfl rfl rfl

/-- C2: a response object carrying an `error` field makes the tool call fail
with a tool error carrying that field's value verbatim, never returning a
success value. -/
theorem c2_call_tool_error_raises :
    ∀ (kvs : List (String × Json)) (payload : Json),
      lookupKey kvs "error" = some payload →
      callToolHandle (.obj kvs) = .error (.toolError payload) ∧
      ∀ v : Json, callToolHandle (.obj kvs) ≠ .ok v := by
  intro kvs payload hlk
  have hk : hasKey kvs "error" = true := hasKey_of_lookupKey hlk
  have heq : callToolHandle (.obj kvs) = .error (.toolError payload) := by
    simp [callToolHandle, pyInContains, pyGetItem, Bind.bind, Except.bind,
      hk, hlk]
  refine ⟨heq, ?_⟩
  intro v h
  rw [heq] at h
  exact Except.noConfusion h

/-- C2 witness: a concrete error payload is carried out verbatim. -/
theorem c2_witness :
    callToolHandle (.obj [("error", Json.num 5)])
      = .error (.toolError (.num 5)) :=
  (c2_call_tool_error_raises [("error", Json.num 5)] (Json.num 5) rfl).1

end RedditMCP

namespace RedditMCP

/-- C4 counterexample: a line holding valid JSON that is not an object is
returned by the receive path as success, with no object check. -/
theorem c4_counterexample :
    readMessage ('[' :: ']' :: '\n' :: []) = .ok (.arr [], []) ∧
    isObj (Json.arr []) = false := by
  exact ⟨rfl, rfl⟩

/-- C4 (amended): the receive path fails with the connection-closed error
exactly when the stream yields nothing, and with the malformed-response
error when the stripped line is not valid JSON; but a line holding valid
JSON that is not an object is returned as success — there is no object
check after decoding. -/
theorem c4_receive_checks :
    (∀ stream : List Char, (readline stream).1 = [] →
      readMessage stream = .error .connectionClosed) ∧
    (∀ stream : List Char, (readline stream).1 ≠ [] →
      jsonLoads (pyStrip (readline stream).1) = none →
      readMessage stream
        = .error (.malformedResponse (String.mk (pyStrip (readline stream).1)))) ∧
    (∀ (j : Json) (rest : List Char), isObj j = false →
      readMessage (wireBytes j ++ rest) = .ok (j, rest)) := by
  refine ⟨?_, ?_, ?_⟩
  · intro stream h
    simp [readMessage, h]
  · intro stream hne hnone
    simp [readMessage, hnone, List.isEmpty_iff, hne]
  · intro j rest _
    exact readMessage_wire j rest

/-- C4 witness: the exhausted stream is reported as a closed connection. -/
theorem c4_witness :
    readMessage ([] : List Char) = .error .connectionClosed :=
  c4_receive_checks.1 [] rfl

/-- C5: the handshake succeeds exactly when the single response it reads
carries a truthy `result`; otherwise it fails carrying the raw response, and
a transport failure while reading propagates unchanged. -/
theorem c5_initialize_result_check :
    (∀ kvs : List (String × Json),
      startHandleResponse (.obj kvs) = .ok () ↔
        truthy ((lookupKey kvs "result").getD .null) = true) ∧
    (∀ kvs : List (String × Json),
      truthy ((lookupKey kvs "result").getD .null) = false →
      startHandleResponse (.obj kvs) = .error (.initializationFailed (.obj kvs))) ∧
    (∀ (stream : List Char) (e : ClientError), readMessage stream = .error e →
      startReceive stream = .error e) ∧
    (∀ (stream : List Char) (j : Json) (rest : List Char),
      readMessage stream = .ok (j, rest) → startHandleResponse j = .ok () →
      startReceive stream = .ok rest) := by
  refine ⟨?_, ?_, ?_, ?_⟩
  · intro kvs
    cases ht : truthy ((lookupKey kvs "result").getD Json.null) <;>
      simp [startHandleResponse, pyGet, Bind.bind, Except.bind, ht]
  · intro kvs ht
    simp [startHandleResponse, pyGet, Bind.bind, Except.bind, ht]
  · intro stream e h
    simp [startReceive, h, Bind.bind, Except.bind]
  · intro stream j rest h1 h2
    simp [startReceive, h1, h2, Bind.bind, Except.bind, Pure.pure, Except.pure]

/-- C5 witness: a response with no `result` field fails carrying the raw
response, and a closed connection during the handshake propagates. -/
theorem c5_witness :
    startHandleResponse (.obj []) = .error (.initializationFailed (.obj [])) ∧
    startReceive ([] : List Char) = .error .connectionClosed :=
  ⟨c5_initialize_result_check.2.1 [] rfl,
   c5_initialize_result_check.2.2.1 [] .connectionClosed rfl⟩

/-- C6: the dedicated payload decode step fails on empty or whitespace-only
text, fails on malformed text carrying at most the first hundred characters
of it, and never returns success on such inputs. -/
theorem c6_safe_json_parse :
    (∀ text : String, (pyStrip text.data).isEmpty = true →
      safeJsonParse text = .error .emptyResponse) ∧
    (∀ text : String, (pyStrip text.data).isEmpty = false →
      jsonLoads text.data = none →
      safeJsonParse text
        = .error (.invalidJsonResponse (String.mk (text.data.take 100)))) ∧
    (∀ text : String, (String.mk (text.data.take 100)).length ≤ 100) ∧
    (∀ text : String, (pyStrip text.data).isEmpty = true →
      ∀ j : Json, safeJsonParse text ≠ .ok j) := by
  refine ⟨?_, ?_, ?_, ?_⟩
  · intro text h
    simp [safeJsonParse, h]
  · intro text h hnone
    have hne : text.data.isEmpty = false := by
      cases hd : text.data with
      | nil => rw [hd] at h; exact absurd h (by simp [pyStrip])
      | cons c cs => simp
    simp [safeJsonParse, h, hne, hnone]
  · intro text
    have : (String.mk (text.data.take 100)).length = (text.data.take 100).length := rfl
    rw [this, List.length_take]
    omega
  · intro text h j hj
    rw [show safeJsonParse text = .error .emptyResponse from by
      simp [safeJsonParse, h]] at hj
    exact Except.noConfusion hj

/-- C6 witness: malformed concrete text fails carrying its prefix, and the
empty string fails outright. -/
theorem c6_witness :
    safeJsonParse "xx" = .error (.invalidJsonResponse "xx") ∧
    safeJsonParse "" = .error .emptyResponse :=
  ⟨c6_safe_json_parse.2.1 "xx" rfl rfl, c6_safe_json_parse.1 "" rfl⟩

/-- C7: an envelope written by the transport is one serialized line with
exactly one trailing newline, the serialized payload holds no raw newline,
and reading that line back reconstructs the identical envelope. -/
theorem c7_wire_round_trip :
    (∀ (kvs : List (String × Json)) (rest : List Char),
      readMessage (wireBytes (Json.obj kvs) ++ rest) = .ok (.obj kvs, rest)) ∧
    (∀ kvs : List (String × Json),
      (dumpJson (Json.obj kvs)).all (fun c => !(c == '\n')) = true) ∧
    (∀ kvs : List (String × Json),
      wireBytes (Json.obj kvs) = dumpJson (Json.obj kvs) ++ ['\n']) := by
  refine ⟨fun kvs rest => readMessage_wire (Json.obj kvs) rest, ?_, fun _ => rfl⟩
  intro kvs
  rw [List.all_eq_true]
  intro c hc
  have hne : c ≠ '\n' := by
    intro h
    rw [h] at hc
    exact nl_not_mem_dumpJson (Json.obj kvs) hc
  simp [hne]

/-- C7 witness: the empty envelope survives the trip. -/
theorem c7_witness :
    readMessage (wireBytes (Json.obj []) ++ []) = .ok (Json.obj [], []) :=
  c7_wire_round_trip.1 [] []

end RedditMCP
